import Mathlib

/-!
Verification of `rusoto-s3-mpu` (multipart upload for S3).

The development shallowly embeds the two core algorithms of `src/lib.rs`
(`dispatch_concurrent` and `multipart_upload`) together with the streaming
part splitter of the `split` module, and proves the specification claims
about them.

Bytes are modelled as `Nat`, byte buffers as `List Nat`.  Asynchronous
entities (futures, streams) are modelled by explicit poll schedules: a
future is a `delay` (number of polls it answers `Pending` before resolving)
together with its final `result`; each stream item likewise carries a
`delay` before the stream yields it.  The hand-written poll loop of
`dispatch_concurrent` is transcribed step by step, including the
`swap_remove` bookkeeping and the `fuse`d source stream; the surrounding
executor (which re-polls the `poll_fn` future whenever it returns
`Pending`) is modelled by iterating rounds of the loop body with a fuel
bound.
-/

namespace RusotoS3Mpu

/-! ## Part splitter

The `split` module itself is not part of the sources available here (only
`mod split;` and its call site in `lib.rs` are), so the splitter is
modelled from the spec. -/

/-- Modelled from the spec: a `Part` as described in §3 of the spec —
`part_number` starting at 1 and strictly increasing in emission order,
`body` the exact byte content, `content_length = len(body)`, and
`content_md5` a digest computed over exactly `body`.  The digest function
is abstract (a parameter of the splitter). -/
structure Part where
  part_number : Nat
  body : List Nat
  content_length : Nat
  content_md5 : List Nat
  deriving Repr, DecidableEq

/-- Modelled from the spec: the inner emission loop of the splitter
(§4.1): whenever the accumulator holds at least `maxsz` bytes, emit a part
of exactly the first `maxsz` bytes and keep the remainder, numbering parts
consecutively from `pn`.  Returns the emitted parts, the next part number,
and the remaining accumulator. -/
def drain (digest : List Nat → List Nat) (maxsz pn : Nat) (acc : List Nat) :
    List Part × Nat × List Nat :=
  if h : 0 < maxsz ∧ maxsz ≤ acc.length then
    let p : Part := ⟨pn, acc.take maxsz, maxsz, digest (acc.take maxsz)⟩
    let r := drain digest maxsz (pn + 1) (acc.drop maxsz)
    (p :: r.1, r.2)
  else
    ([], pn, acc)
termination_by acc.length
decreasing_by simp only [List.length_drop]; omega

/-- Modelled from the spec: the splitter's buffer loop (§4.1).  For each
incoming buffer, append it to the accumulator and drain full parts; when
the input is exhausted, emit one final part with whatever remains — unless
the accumulator is empty and at least one part (`pn ≠ 1`) has already been
emitted. -/
def splitChunks (digest : List Nat → List Nat) (maxsz pn : Nat) (acc : List Nat) :
    List (List Nat) → List Part
  | [] =>
    if acc.isEmpty ∧ pn ≠ 1 then []
    else [⟨pn, acc, acc.length, digest acc⟩]
  | b :: bs =>
    let r := drain digest maxsz pn (acc ++ b)
    r.1 ++ splitChunks digest maxsz r.2.1 r.2.2 bs

/-- Modelled from the spec: `split::split` — the lazy sequence of
size-conforming parts produced from the input buffers with part-size range
`[sizeMin, sizeMax]` (the minimum never drives emission; it only appears
in the size invariant). -/
def split (digest : List Nat → List Nat) (body : List (List Nat))
    (sizeMin sizeMax : Nat) : List Part :=
  splitChunks digest sizeMax 1 [] body

/-! ## Bounded dispatcher (`dispatch_concurrent` in `lib.rs`)

A task (a `Future` in the Rust code) is modelled by a poll schedule: it
answers `Pending` for `delay` polls, each poll advancing its internal
progress, and then resolves to `result`.  A source-stream item likewise
becomes available after `delay` polls of the stream. -/

/-- A dispatched task: resolves to `result` after `delay` pending polls. -/
structure MTask (T E : Type) where
  delay : Nat
  result : Except E T

/-- An item of the task source stream: after `delay` pending polls the
stream yields `item` (either a task or a stream error). -/
structure SrcItem (T E : Type) where
  delay : Nat
  item : Except E (MTask T E)

/-- Observable events of a dispatch run: a task was started (with the
resulting in-flight count), or a failure was detected. -/
inductive DEvent (E : Type) where
  | started (inflight : Nat)
  | failed (e : E)

/-- The state of the dispatch loop between polls: the unconsumed source,
whether the fused source has reported exhaustion, the in-flight task
vector, and the collected outputs (in completion order). -/
structure DState (T E : Type) where
  src : List (SrcItem T E)
  srcDone : Bool
  futs : List (MTask T E)
  outs : List T

/-- The source-filling inner loop of `dispatch_concurrent`: while capacity
remains (`limit` exceeds the in-flight count, or `limit` is absent), poll
the fused source; a yielded task is pushed onto the in-flight vector, a
source error aborts the dispatch, exhaustion marks the stream done, and a
pending source sets the pending flag and stops filling.  Returns the new
source, done flag, in-flight vector and pending flag, plus the events
emitted. -/
def fill (limit : Option Nat) (srcDone : Bool) (futs : List (MTask T E)) :
    List (SrcItem T E) →
      Except E (List (SrcItem T E) × Bool × List (MTask T E) × Bool) × List (DEvent E)
  | [] =>
    if limit.all (fun l => futs.length < l) then
      (.ok ([], true, futs, false), [])
    else
      (.ok ([], srcDone, futs, false), [])
  | s :: rest =>
    if limit.all (fun l => futs.length < l) then
      if srcDone then
        (.ok (s :: rest, srcDone, futs, false), [])
      else if s.delay = 0 then
        match s.item with
        | .ok t =>
          let r := fill limit srcDone (futs ++ [t]) rest
          (r.1, .started (futs.length + 1) :: r.2)
        | .error e => (.error e, [.failed e])
      else
        (.ok ({ s with delay := s.delay - 1 } :: rest, srcDone, futs, true), [])
    else
      (.ok (s :: rest, srcDone, futs, false), [])

/-- The in-flight polling inner loop of `dispatch_concurrent`, as a zipper
over the in-flight vector: `checked` holds the already-polled, still
pending tasks (progress recorded by decrementing their delays), `todo` the
tasks at index `i` onward.  A ready-`Ok` task is `swap_remove`d — the last
element of the vector replaces it and is polled next — and its output
appended; a ready-`Err` task aborts the dispatch; a pending task moves to
`checked` and sets the pending flag. -/
def pollFuts (checked : List (MTask T E)) (outs : List T) (isP : Bool) :
    List (MTask T E) →
      Except E (List (MTask T E) × List T × Bool) × List (DEvent E)
  | [] => (.ok (checked, outs, isP), [])
  | t :: rest =>
    if t.delay = 0 then
      match t.result with
      | .ok v =>
        match rest with
        | [] => (.ok (checked, outs ++ [v], isP), [])
        | r :: rs =>
          pollFuts checked (outs ++ [v]) isP
            ((r :: rs).getLast (List.cons_ne_nil r rs) :: (r :: rs).dropLast)
      | .error e => (.error e, [.failed e])
    else
      pollFuts (checked ++ [{ t with delay := t.delay - 1 }]) outs true rest
termination_by todo => todo.length
decreasing_by
  · simp [List.length_dropLast]
  · simp

/-- One pass of the outer `while` loop of `dispatch_concurrent`: fill from
the source, then poll every in-flight task once. -/
def dround (limit : Option Nat) (st : DState T E) :
    Except E (DState T E × Bool) × List (DEvent E) :=
  match fill limit st.srcDone st.futs st.src with
  | (.error e, evs) => (.error e, evs)
  | (.ok (src', done', futs', isP), evs) =>
    match pollFuts [] st.outs isP futs' with
    | (.error e, evs2) => (.error e, evs ++ evs2)
    | (.ok (futs'', outs', _isP'), evs2) =>
      (.ok (⟨src', done', futs'', outs'⟩, _isP'), evs ++ evs2)

/-- The outer loop of `dispatch_concurrent` together with the executor
that re-polls on `Pending`: repeat `dround` until the source is done and
no task is in flight (success) or a failure is detected, with `fuel`
bounding the number of rounds (`none` = fuel exhausted while the dispatch
was still pending). -/
def drun (limit : Option Nat) : Nat → DState T E →
    Option (Except E (List T)) × List (DEvent E)
  | 0, _ => (none, [])
  | fuel + 1, st =>
    if st.srcDone && st.futs.isEmpty then
      (some (.ok st.outs), [])
    else
      match dround limit st with
      | (.error e, evs) => (some (.error e), evs)
      | (.ok (st', _), evs) =>
        let r := drun limit fuel st'
        (r.1, evs ++ r.2)

/-- Result of a dispatch: the `assert!(limit > 0)` fired (`panicked`), the
fuel ran out while still pending (`noFuel`), or the dispatch completed
with a `Result`. -/
inductive DispatchOut (T E : Type) where
  | panicked
  | noFuel
  | completed (r : Except E (List T))

/-- `dispatch_concurrent` of `lib.rs`: assert the concurrency limit is
positive, then run the poll loop from the empty initial state. -/
def dispatch_concurrent (src : List (SrcItem T E)) (limit : Option Nat) (fuel : Nat) :
    DispatchOut T E × List (DEvent E) :=
  if limit = some 0 then
    (.panicked, [])
  else
    match drun limit fuel ⟨src, false, [], []⟩ with
    | (none, evs) => (.noFuel, evs)
    | (some r, evs) => (.completed r, evs)

/-! ## Upload orchestrator (`multipart_upload` in `lib.rs`)

The remote client is modelled by oracles for the outcomes of the four
remote calls.  The part-upload futures produced by `split(...).map_ok(...)`
are abstracted as the dispatcher source (each task resolving to the
`CompletedPart` built from the upload-part response, or to a converted
upload error). -/

/-- A completed-part record as built by `multipart_upload`: the `e_tag`
from the upload-part response and the part number (rusoto wraps both in
`Option`; the code always sets `part_number` to `Some`, so it is modelled
as a bare `Nat`, on which `sort_by_key` agrees with the `Option` order). -/
structure CompletedPart where
  e_tag : Option String
  part_number : Nat
  deriving Repr, DecidableEq

/-- Remote calls issued by `multipart_upload`, in order.  Part uploads run
inside the dispatched tasks and are abstracted into the dispatcher
source. -/
inductive MPUCall where
  | createCall
  | completeCall (upload_id : String) (parts : List CompletedPart)
  | abortCall (upload_id : String)
  deriving Repr, DecidableEq

/-- Outcome of `multipart_upload`: the `unwrap` on a missing `upload_id`
panicked, the dispatcher assertion panicked, fuel ran out, or the function
returned `Ok`/`Err`. -/
inductive MPUOut (E Out : Type) where
  | panickedNoUploadId
  | panickedLimit
  | noFuel
  | ok (o : Out)
  | err (e : E)

/-- `multipart_upload` of `lib.rs`: issue the create (begin) call; on
success `unwrap` the `upload_id`; dispatch the part-upload futures with
the concurrency limit; on dispatcher success sort the completed parts by
part number and issue the complete call; on any failure after begin issue
the abort call and return the original failure, discarding the abort
call's own result (`abortRes` is accepted and ignored, mirroring
`.map(|_| Err(e))`).  The second component is the trace of remote calls
issued. -/
def multipart_upload (createRes : Except E (Option String))
    (uploadFutures : List (SrcItem CompletedPart E))
    (completeRes : List CompletedPart → Except E Out)
    (abortRes : Bool) (limit : Option Nat) (fuel : Nat) :
    MPUOut E Out × List MPUCall :=
  match createRes with
  | .error e => (.err e, [.createCall])
  | .ok none => (.panickedNoUploadId, [.createCall])
  | .ok (some uid) =>
    match (dispatch_concurrent uploadFutures limit fuel).1 with
    | .panicked => (.panickedLimit, [.createCall])
    | .noFuel => (.noFuel, [.createCall])
    | .completed (.error e) => (.err e, [.createCall, .abortCall uid])
    | .completed (.ok parts) =>
      let sorted := parts.mergeSort (fun a b => a.part_number ≤ b.part_number)
      match completeRes sorted with
      | .ok out => (.ok out, [.createCall, .completeCall uid sorted])
      | .error e => (.err e, [.createCall, .completeCall uid sorted, .abortCall uid])

/-! ## Splitter lemmas -/

theorem drain_flatten (digest : List Nat → List Nat) (mx pn : Nat) (acc : List Nat) :
    ((drain digest mx pn acc).1.map Part.body).flatten ++ (drain digest mx pn acc).2.2 = acc := by
  induction pn, acc using drain.induct digest mx with
  | case1 pn acc h ih =>
    rw [drain]
    simp only [dif_pos h]
    simp only [List.map_cons, List.flatten_cons, List.append_assoc, ih,
      List.take_append_drop]
  | case2 pn acc h =>
    rw [drain]
    simp [h]

theorem drain_sizes (digest : List Nat → List Nat) (mx pn : Nat) (acc : List Nat) :
    ∀ p ∈ (drain digest mx pn acc).1, p.content_length = mx ∧ p.body.length = mx := by
  induction pn, acc using drain.induct digest mx with
  | case1 pn acc h ih =>
    rw [drain]
    simp only [dif_pos h, List.mem_cons]
    rintro p (rfl | hp)
    · constructor
      · rfl
      · simp only [List.length_take]
        omega
    · exact ih p hp
  | case2 pn acc h =>
    rw [drain]
    simp [h]

theorem drain_numbers (digest : List Nat → List Nat) (mx pn : Nat) (acc : List Nat) :
    (drain digest mx pn acc).1.map Part.part_number =
      List.range' pn (drain digest mx pn acc).1.length ∧
    (drain digest mx pn acc).2.1 = pn + (drain digest mx pn acc).1.length := by
  induction pn, acc using drain.induct digest mx with
  | case1 pn acc h ih =>
    rw [drain]
    simp only [dif_pos h, List.map_cons, List.length_cons]
    constructor
    · rw [List.range'_succ, ih.1]
    · rw [ih.2]
      omega
  | case2 pn acc h =>
    rw [drain]
    simp [h]

theorem drain_rest_lt (digest : List Nat → List Nat) (mx pn : Nat) (acc : List Nat)
    (hmx : 0 < mx) : ((drain digest mx pn acc).2.2).length < mx := by
  induction pn, acc using drain.induct digest mx with
  | case1 pn acc h ih =>
    rw [drain]
    simpa only [dif_pos h] using ih
  | case2 pn acc h =>
    rw [drain]
    simp only [dif_neg h]
    omega

theorem mem_dropLast_append {α : Type} {a : α} {xs ys : List α}
    (h : a ∈ (xs ++ ys).dropLast) : a ∈ xs ∨ a ∈ ys.dropLast := by
  rcases eq_or_ne ys [] with rfl | hne
  · rw [List.append_nil] at h
    exact Or.inl (List.dropLast_subset xs h)
  · rw [List.dropLast_append_of_ne_nil xs hne, List.mem_append] at h
    exact h

theorem range'_add_append (s m n : Nat) :
    List.range' s m ++ List.range' (s + m) n = List.range' s (m + n) := by
  have h := List.range'_append s m n 1
  rw [one_mul] at h
  rw [Nat.add_comm m n]
  exact h

theorem splitChunks_flatten (digest : List Nat → List Nat) (mx : Nat)
    (bs : List (List Nat)) : ∀ pn acc,
    ((splitChunks digest mx pn acc bs).map Part.body).flatten = acc ++ bs.flatten := by
  induction bs with
  | nil =>
    intro pn acc
    rw [splitChunks]
    split
    next h =>
      simp only [List.isEmpty_iff] at h
      simp [h.1]
    next => simp
  | cons b bs ih =>
    intro pn acc
    rw [splitChunks]
    simp only [List.map_append, List.flatten_append, ih]
    rw [← List.append_assoc, drain_flatten, List.flatten_cons, List.append_assoc]

theorem splitChunks_len_eq (digest : List Nat → List Nat) (mx : Nat)
    (bs : List (List Nat)) : ∀ pn acc, ∀ p ∈ splitChunks digest mx pn acc bs,
    p.content_length = p.body.length := by
  induction bs with
  | nil =>
    intro pn acc p hp
    rw [splitChunks] at hp
    split at hp
    next => simp at hp
    next =>
      simp only [List.mem_singleton] at hp
      subst hp
      rfl
  | cons b bs ih =>
    intro pn acc p hp
    rw [splitChunks] at hp
    rw [List.mem_append] at hp
    rcases hp with hp | hp
    · have := drain_sizes digest mx pn (acc ++ b) p hp
      omega
    · exact ih _ _ p hp

theorem splitChunks_numbers (digest : List Nat → List Nat) (mx : Nat)
    (bs : List (List Nat)) : ∀ pn acc,
    (splitChunks digest mx pn acc bs).map Part.part_number =
      List.range' pn (splitChunks digest mx pn acc bs).length := by
  induction bs with
  | nil =>
    intro pn acc
    rw [splitChunks]
    split
    next => simp
    next => simp [List.range'_succ]
  | cons b bs ih =>
    intro pn acc
    rw [splitChunks]
    simp only [List.map_append, List.length_append]
    rw [(drain_numbers digest mx pn (acc ++ b)).1, ih,
      (drain_numbers digest mx pn (acc ++ b)).2, range'_add_append]

theorem splitChunks_le_max (digest : List Nat → List Nat) (mx : Nat)
    (bs : List (List Nat)) : ∀ pn acc, 0 < mx → acc.length < mx →
    ∀ p ∈ splitChunks digest mx pn acc bs, p.content_length ≤ mx := by
  induction bs with
  | nil =>
    intro pn acc hmx hacc p hp
    rw [splitChunks] at hp
    split at hp
    next => simp at hp
    next =>
      simp only [List.mem_singleton] at hp
      subst hp
      simp only
      omega
  | cons b bs ih =>
    intro pn acc hmx hacc p hp
    rw [splitChunks] at hp
    rw [List.mem_append] at hp
    rcases hp with hp | hp
    · exact (drain_sizes digest mx pn (acc ++ b) p hp).1.le
    · exact ih _ _ hmx (drain_rest_lt digest mx pn (acc ++ b) hmx) p hp

theorem splitChunks_dropLast_eq_max (digest : List Nat → List Nat) (mx : Nat)
    (bs : List (List Nat)) : ∀ pn acc,
    ∀ p ∈ (splitChunks digest mx pn acc bs).dropLast, p.content_length = mx := by
  induction bs with
  | nil =>
    intro pn acc p hp
    rw [splitChunks] at hp
    split at hp
    · simp at hp
    · simp at hp
  | cons b bs ih =>
    intro pn acc p hp
    rw [splitChunks] at hp
    rcases mem_dropLast_append hp with hp | hp
    · exact (drain_sizes digest mx pn (acc ++ b) p hp).1
    · exact ih _ _ p hp

/-- C1: for every input byte sequence of total length L split with range
[min, max] (0 < min ≤ max), the emitted parts satisfy: the content lengths
sum to L; every part except the last has min ≤ content_length ≤ max; every
part (in particular the last) has content_length ≤ max; the part numbers
are exactly 1..n with no gaps; and concatenating the parts' bodies in
part-number (= emission) order reproduces the input bytes exactly. -/
theorem split_correct (digest : List Nat → List Nat) (bufs : List (List Nat))
    (mn mx : Nat) (hmn : 0 < mn) (hle : mn ≤ mx) :
    ((split digest bufs mn mx).map Part.content_length).sum =
        (bufs.map List.length).sum ∧
    (∀ p ∈ (split digest bufs mn mx).dropLast,
        mn ≤ p.content_length ∧ p.content_length ≤ mx) ∧
    (∀ p ∈ split digest bufs mn mx, p.content_length ≤ mx) ∧
    (split digest bufs mn mx).map Part.part_number =
        List.range' 1 (split digest bufs mn mx).length ∧
    ((split digest bufs mn mx).map Part.body).flatten = bufs.flatten := by
  have hmx : 0 < mx := lt_of_lt_of_le hmn hle
  refine ⟨?_, ?_, ?_, ?_, ?_⟩
  · have h1 : (split digest bufs mn mx).map Part.content_length =
        (split digest bufs mn mx).map (fun p => p.body.length) :=
      List.map_congr_left (fun p hp => splitChunks_len_eq digest mx bufs 1 [] p hp)
    rw [h1]
    have h2 : ((split digest bufs mn mx).map (fun p => p.body.length)).sum =
        (((split digest bufs mn mx).map Part.body).map List.length).sum := by
      rw [List.map_map]
      rfl
    rw [h2, ← List.length_flatten, ← List.length_flatten]
    rw [show ((split digest bufs mn mx).map Part.body).flatten = bufs.flatten from ?_]
    · exact splitChunks_flatten digest mx bufs 1 []
  · intro p hp
    have := splitChunks_dropLast_eq_max digest mx bufs 1 [] p hp
    omega
  · exact splitChunks_le_max digest mx bufs 1 [] hmx (by simpa using hmx)
  · exact splitChunks_numbers digest mx bufs 1 []
  · exact splitChunks_flatten digest mx bufs 1 []

/-- Witness for C1 at a concrete input: buffers `[[1,2,3],[4,5]]` with
range `[2, 2]`. -/
theorem split_correct_witness :
    (0 < 2 ∧ 2 ≤ 2) ∧
    (((split (fun l => l) [[1,2,3],[4,5]] 2 2).map Part.content_length).sum =
        ([[1,2,3],[4,5]].map List.length).sum ∧
    (∀ p ∈ (split (fun l => l) [[1,2,3],[4,5]] 2 2).dropLast,
        2 ≤ p.content_length ∧ p.content_length ≤ 2) ∧
    (∀ p ∈ split (fun l => l) [[1,2,3],[4,5]] 2 2, p.content_length ≤ 2) ∧
    (split (fun l => l) [[1,2,3],[4,5]] 2 2).map Part.part_number =
        List.range' 1 (split (fun l => l) [[1,2,3],[4,5]] 2 2).length ∧
    ((split (fun l => l) [[1,2,3],[4,5]] 2 2).map Part.body).flatten =
        [[1,2,3],[4,5]].flatten) :=
  ⟨⟨by decide, by decide⟩,
    split_correct (fun l => l) [[1,2,3],[4,5]] 2 2 (by decide) (by decide)⟩

/-! ## Dispatcher lemmas -/

theorem fill_started_le {T E : Type} (k : Nat) :
    ∀ (src : List (SrcItem T E)) (d : Bool) (futs : List (MTask T E)) (n : Nat),
      DEvent.started n ∈ (fill (some k) d futs src).2 → n ≤ k := by
  intro src
  induction src with
  | nil =>
    intro d futs n h
    rw [fill] at h
    split at h <;> simp at h
  | cons s rest ih =>
    intro d futs n h
    rw [fill] at h
    split at h
    next hcap =>
      simp only [Option.all_some, decide_eq_true_eq] at hcap
      split at h
      · simp at h
      · split at h
        · split at h
          next t hitem =>
            simp only [List.mem_cons] at h
            rcases h with h | h
            · cases h
              omega
            · exact ih d (futs ++ [t]) n h
          next e hitem =>
            simp at h
        · simp at h
    next => simp at h

theorem fill_ok_no_failed {T E : Type} :
    ∀ (src : List (SrcItem T E)) (limit : Option Nat) (d : Bool)
      (futs : List (MTask T E)) s evs,
      fill limit d futs src = (.ok s, evs) → ∀ e, DEvent.failed e ∉ evs := by
  intro src
  induction src with
  | nil =>
    intro limit d futs s evs h e
    rw [fill] at h
    split at h <;> (cases h; simp)
  | cons si rest ih =>
    intro limit d futs s evs h e
    rw [fill] at h
    split at h
    · split at h
      · cases h
        simp
      · split at h
        · split at h
          next t hitem =>
            rcases hr : fill limit d (futs ++ [t]) rest with ⟨r1, r2⟩
            rw [hr] at h
            cases h
            simp only [List.mem_cons, not_or]
            refine ⟨by simp, ?_⟩
            exact ih limit d (futs ++ [t]) s r2 (by rw [hr]) e
          next e' hitem =>
            cases h
        · cases h
          simp
    · cases h
      simp

theorem fill_err_trace {T E : Type} :
    ∀ (src : List (SrcItem T E)) (limit : Option Nat) (d : Bool)
      (futs : List (MTask T E)) (e : E) evs,
      fill limit d futs src = (.error e, evs) →
      ∃ pre, evs = pre ++ [DEvent.failed e] ∧ ∀ e', DEvent.failed e' ∉ pre := by
  intro src
  induction src with
  | nil =>
    intro limit d futs e evs h
    rw [fill] at h
    split at h <;> cases h
  | cons si rest ih =>
    intro limit d futs e evs h
    rw [fill] at h
    split at h
    · split at h
      · cases h
      · split at h
        · split at h
          next t hitem =>
            rcases hr : fill limit d (futs ++ [t]) rest with ⟨r1, r2⟩
            rw [hr] at h
            cases h
            obtain ⟨pre, hpre, hnf⟩ := ih limit d (futs ++ [t]) e r2 (by rw [hr])
            refine ⟨DEvent.started (futs.length + 1) :: pre, ?_, ?_⟩
            · simp [hpre]
            · intro e'
              simp only [List.mem_cons, not_or]
              exact ⟨by simp, hnf e'⟩
          next e' hitem =>
            cases h
            exact ⟨[], rfl, by simp⟩
        · cases h
    · cases h

theorem fill_none_exhausts {T E : Type} :
    ∀ (src : List (SrcItem T E)) (futs : List (MTask T E)) src' d' futs' isP evs,
      fill none false futs src = (.ok (src', d', futs', isP), evs) →
      src' = [] ∨ isP = true := by
  intro src
  induction src with
  | nil =>
    intro futs src' d' futs' isP evs h
    rw [fill] at h
    split at h <;> (cases h; exact Or.inl rfl)
  | cons si rest ih =>
    intro futs src' d' futs' isP evs h
    rcases si with ⟨sd, sitem⟩
    cases sd with
    | zero =>
      cases sitem with
      | ok t =>
        rcases hr : fill none false (futs ++ [t]) rest with ⟨r1, r2⟩
        rw [fill] at h
        simp only [Option.all_none, if_true, Bool.false_eq_true, if_false, hr] at h
        simp only [Prod.mk.injEq] at h
        exact ih (futs ++ [t]) src' d' futs' isP r2 (by rw [hr, h.1])
      | error e =>
        rw [fill] at h
        simp at h
    | succ n =>
      rw [fill] at h
      simp at h
      exact Or.inr h.1.2.2.2

theorem pollFuts_no_started {T E : Type} (checked : List (MTask T E)) (outs : List T)
    (isP : Bool) (todo : List (MTask T E)) :
    ∀ n, DEvent.started n ∉ (pollFuts checked outs isP todo).2 := by
  induction checked, outs, isP, todo using pollFuts.induct with
  | case1 checked outs isP =>
    intro n
    rw [pollFuts]
    simp
  | case2 checked outs isP r h0 v hv =>
    intro n
    rw [pollFuts]
    simp [h0, hv]
  | case3 checked outs isP r h0 v hv r1 rs ih =>
    intro n
    rw [pollFuts]
    simp only [h0, if_true, hv]
    exact ih n
  | case4 checked outs isP r rs h0 e hv =>
    intro n
    rw [pollFuts]
    cases rs <;> simp [h0, hv]
  | case5 checked outs isP r rs h0 ih =>
    intro n
    rw [pollFuts]
    simp only [h0, if_neg, if_false]
    exact ih n

theorem pollFuts_ok_no_failed {T E : Type} (checked : List (MTask T E)) (outs : List T)
    (isP : Bool) (todo : List (MTask T E)) :
    ∀ s evs, pollFuts checked outs isP todo = (.ok s, evs) →
      ∀ e, DEvent.failed e ∉ evs := by
  induction checked, outs, isP, todo using pollFuts.induct with
  | case1 checked outs isP =>
    intro s evs h e
    rw [pollFuts] at h
    cases h
    simp
  | case2 checked outs isP r h0 v hv =>
    intro s evs h e
    rw [pollFuts] at h
    simp only [h0, if_true, hv] at h
    cases h
    simp
  | case3 checked outs isP r h0 v hv r1 rs ih =>
    intro s evs h e
    rw [pollFuts] at h
    simp only [h0, if_true, hv] at h
    exact ih s evs h e
  | case4 checked outs isP r rs h0 e' hv =>
    intro s evs h e
    rw [pollFuts] at h
    simp [h0, hv] at h
  | case5 checked outs isP r rs h0 ih =>
    intro s evs h e
    rw [pollFuts] at h
    simp only [h0, if_neg, if_false] at h
    exact ih s evs h e

theorem pollFuts_err_trace {T E : Type} (checked : List (MTask T E)) (outs : List T)
    (isP : Bool) (todo : List (MTask T E)) :
    ∀ (e : E) evs, pollFuts checked outs isP todo = (.error e, evs) →
      ∃ pre, evs = pre ++ [DEvent.failed e] ∧ ∀ e', DEvent.failed e' ∉ pre := by
  induction checked, outs, isP, todo using pollFuts.induct with
  | case1 checked outs isP =>
    intro e evs h
    rw [pollFuts] at h
    cases h
  | case2 checked outs isP r h0 v hv =>
    intro e evs h
    rw [pollFuts] at h
    simp only [h0, if_true, hv] at h
    cases h
  | case3 checked outs isP r h0 v hv r1 rs ih =>
    intro e evs h
    rw [pollFuts] at h
    simp only [h0, if_true, hv] at h
    exact ih e evs h
  | case4 checked outs isP r rs h0 e' hv =>
    intro e evs h
    rw [pollFuts] at h
    simp [h0, hv] at h
    exact ⟨[], by rw [← h.2, h.1]; rfl, by simp⟩
  | case5 checked outs isP r rs h0 ih =>
    intro e evs h
    rw [pollFuts] at h
    simp only [h0, if_neg, if_false] at h
    exact ih e evs h

theorem dround_started_le {T E : Type} (k : Nat) (st : DState T E) :
    ∀ n, DEvent.started n ∈ (dround (some k) st).2 → n ≤ k := by
  intro n h
  rcases hf : fill (some k) st.srcDone st.futs st.src with ⟨fr, fevs⟩
  cases fr with
  | error e =>
    simp only [dround, hf] at h
    exact fill_started_le k st.src st.srcDone st.futs n (by rw [hf]; exact h)
  | ok s =>
    rcases s with ⟨src', done', futs', isP⟩
    rcases hp : pollFuts ([] : List (MTask T E)) st.outs isP futs' with ⟨pr, pevs⟩
    cases pr with
    | error e =>
      simp only [dround, hf, hp, List.mem_append] at h
      rcases h with h | h
      · exact fill_started_le k st.src st.srcDone st.futs n (by rw [hf]; exact h)
      · have := pollFuts_no_started ([] : List (MTask T E)) st.outs isP futs' n
        rw [hp] at this
        exact absurd h this
    | ok s2 =>
      rcases s2 with ⟨futs'', outs', isP'⟩
      simp only [dround, hf, hp, List.mem_append] at h
      rcases h with h | h
      · exact fill_started_le k st.src st.srcDone st.futs n (by rw [hf]; exact h)
      · have := pollFuts_no_started ([] : List (MTask T E)) st.outs isP futs' n
        rw [hp] at this
        exact absurd h this

theorem dround_ok_no_failed {T E : Type} (limit : Option Nat) (st : DState T E) :
    ∀ s evs, dround limit st = (.ok s, evs) → ∀ e, DEvent.failed e ∉ evs := by
  intro s evs h e
  rcases hf : fill limit st.srcDone st.futs st.src with ⟨fr, fevs⟩
  cases fr with
  | error e' =>
    simp only [dround, hf] at h
    cases h
  | ok s1 =>
    rcases s1 with ⟨src', done', futs', isP⟩
    rcases hp : pollFuts ([] : List (MTask T E)) st.outs isP futs' with ⟨pr, pevs⟩
    cases pr with
    | error e' =>
      simp only [dround, hf, hp] at h
      cases h
    | ok s2 =>
      rcases s2 with ⟨futs'', outs', isP'⟩
      simp only [dround, hf, hp] at h
      cases h
      rw [List.mem_append, not_or]
      constructor
      · exact fill_ok_no_failed st.src limit st.srcDone st.futs _ _ hf e
      · exact pollFuts_ok_no_failed ([] : List (MTask T E)) st.outs isP futs' _ _ hp e

theorem dround_err_trace {T E : Type} (limit : Option Nat) (st : DState T E) :
    ∀ (e : E) evs, dround limit st = (.error e, evs) →
      ∃ pre, evs = pre ++ [DEvent.failed e] ∧ ∀ e', DEvent.failed e' ∉ pre := by
  intro e evs h
  rcases hf : fill limit st.srcDone st.futs st.src with ⟨fr, fevs⟩
  cases fr with
  | error e' =>
    simp only [dround, hf] at h
    cases h
    exact fill_err_trace st.src limit st.srcDone st.futs e evs hf
  | ok s1 =>
    rcases s1 with ⟨src', done', futs', isP⟩
    rcases hp : pollFuts ([] : List (MTask T E)) st.outs isP futs' with ⟨pr, pevs⟩
    cases pr with
    | error e' =>
      simp only [dround, hf, hp] at h
      cases h
      obtain ⟨pre, hpre, hnf⟩ :=
        pollFuts_err_trace ([] : List (MTask T E)) st.outs isP futs' e pevs (by rw [hp])
      refine ⟨fevs ++ pre, by rw [hpre, List.append_assoc], ?_⟩
      intro e'
      rw [List.mem_append, not_or]
      exact ⟨fill_ok_no_failed st.src limit st.srcDone st.futs _ _ hf e', hnf e'⟩
    | ok s2 =>
      rcases s2 with ⟨futs'', outs', isP'⟩
      simp only [dround, hf, hp] at h
      cases h

theorem drun_started_le {T E : Type} (k : Nat) :
    ∀ (fuel : Nat) (st : DState T E) n,
      DEvent.started n ∈ (drun (some k) fuel st).2 → n ≤ k := by
  intro fuel
  induction fuel with
  | zero =>
    intro st n h
    rw [drun] at h
    simp at h
  | succ fuel ih =>
    intro st n h
    rw [drun] at h
    split at h
    · simp at h
    · rcases hr : dround (some k) st with ⟨rr, revs⟩
      rw [hr] at h
      cases rr with
      | error e =>
        exact dround_started_le k st n (by rw [hr]; exact h)
      | ok p =>
        rcases p with ⟨st', isP⟩
        rw [List.mem_append] at h
        rcases h with h | h
        · exact dround_started_le k st n (by rw [hr]; exact h)
        · exact ih st' n h

theorem drun_err_trace {T E : Type} (limit : Option Nat) :
    ∀ (fuel : Nat) (st : DState T E) (e : E) evs,
      drun limit fuel st = (some (.error e), evs) →
      ∃ pre, evs = pre ++ [DEvent.failed e] ∧ ∀ e', DEvent.failed e' ∉ pre := by
  intro fuel
  induction fuel with
  | zero =>
    intro st e evs h
    rw [drun] at h
    cases h
  | succ fuel ih =>
    intro st e evs h
    rw [drun] at h
    split at h
    · cases h
    · rcases hr : dround limit st with ⟨rr, revs⟩
      rw [hr] at h
      cases rr with
      | error e' =>
        cases h
        exact dround_err_trace limit st e evs hr
      | ok p =>
        rcases p with ⟨st', isP⟩
        dsimp only at h
        rcases hd : drun limit fuel st' with ⟨dr, devs⟩
        rw [hd] at h
        simp only [Prod.mk.injEq] at h
        obtain ⟨h1, h2⟩ := h
        obtain ⟨pre, hpre, hnf⟩ := ih st' e devs (by rw [hd, h1])
        subst h2
        refine ⟨revs ++ pre, by rw [hpre, List.append_assoc], ?_⟩
        intro e'
        rw [List.mem_append, not_or]
        exact ⟨dround_ok_no_failed limit st _ _ hr e', hnf e'⟩

/-- C4: for every task sequence and run of the dispatcher in which some
task or the source fails, the dispatcher returns exactly the first
detected failure, and its event trace ends at that failure: the single
`failed` event is the last event, so no task is started after detection
(task starts are the only other events). -/
theorem dispatch_fail_fast {T E : Type} (src : List (SrcItem T E)) (limit : Option Nat)
    (fuel : Nat) (e : E) (evs : List (DEvent E))
    (h : dispatch_concurrent src limit fuel = (.completed (.error e), evs)) :
    ∃ pre, evs = pre ++ [DEvent.failed e] ∧ ∀ e', DEvent.failed e' ∉ pre := by
  rw [dispatch_concurrent] at h
  split at h
  · cases h
  · rcases hr : drun limit fuel (⟨src, false, [], []⟩ : DState T E) with ⟨rr, revs⟩
    rw [hr] at h
    cases rr with
    | none => cases h
    | some r =>
      cases h
      exact drun_err_trace limit fuel ⟨src, false, [], []⟩ e evs hr

/-- Witness for C4: a source whose single item is a stream error `7`. -/
theorem dispatch_fail_fast_witness :
    dispatch_concurrent [(⟨0, Except.error 7⟩ : SrcItem Nat Nat)] none 1 =
        (.completed (.error 7), [DEvent.failed 7]) ∧
    ∃ pre, ([DEvent.failed (7 : Nat)]) = pre ++ [DEvent.failed 7] ∧
      ∀ e', DEvent.failed e' ∉ pre :=
  ⟨rfl, dispatch_fail_fast (T := Nat) [⟨0, Except.error 7⟩] none 1 7 [DEvent.failed 7] rfl⟩

/-- C5: with `limit = some k` the in-flight set never holds more than `k`
tasks at any point of the dispatch loop: every `started` event records the
in-flight count at the only moments the set grows, and each such count is
≤ k.  With `limit` absent the fill loop starts every task the moment it is
produced: it stops only because the source is exhausted or its next item
is still pending. -/
theorem dispatch_concurrency_bound {T E : Type} (k : Nat) (src : List (SrcItem T E))
    (fuel : Nat) :
    (∀ n, DEvent.started n ∈ (dispatch_concurrent src (some k) fuel).2 → n ≤ k) ∧
    (∀ (futs : List (MTask T E)) src' d' futs' isP evs,
      fill none false futs src = (.ok (src', d', futs', isP), evs) →
      src' = [] ∨ isP = true) := by
  constructor
  · intro n h
    rw [dispatch_concurrent] at h
    split at h
    · simp at h
    · rcases hr : drun (some k) fuel (⟨src, false, [], []⟩ : DState T E) with ⟨rr, revs⟩
      rw [hr] at h
      cases rr <;>
        exact drun_started_le k fuel ⟨src, false, [], []⟩ n (by rw [hr]; exact h)
  · exact fun futs src' d' futs' isP evs h =>
      fill_none_exhausts src futs src' d' futs' isP evs h

/-- Witness for C5: one immediately-available task under limit 1. -/
theorem dispatch_concurrency_bound_witness :
    (DEvent.started 1 ∈
        (dispatch_concurrent [(⟨0, Except.ok ⟨0, Except.ok 5⟩⟩ : SrcItem Nat Nat)]
          (some 1) 3).2 ∧
      fill none false ([] : List (MTask Nat Nat)) [(⟨0, Except.ok ⟨0, Except.ok 5⟩⟩ : SrcItem Nat Nat)] =
        (.ok ([], true, [⟨0, Except.ok 5⟩], false), [DEvent.started 1])) ∧
    (1 ≤ 1 ∧ (([] : List (SrcItem Nat Nat)) = [] ∨ false = true)) :=
  ⟨⟨by simp [dispatch_concurrent, drun, dround, fill, pollFuts], by
      simp [fill]⟩,
    (dispatch_concurrency_bound 1
        [(⟨0, Except.ok ⟨0, Except.ok 5⟩⟩ : SrcItem Nat Nat)] 3).1 1
      (by simp [dispatch_concurrent, drun, dround, fill, pollFuts]),
    (dispatch_concurrency_bound 1
        [(⟨0, Except.ok ⟨0, Except.ok 5⟩⟩ : SrcItem Nat Nat)] 3).2
      [] [] true [⟨0, Except.ok 5⟩] false [DEvent.started 1] (by simp [fill])⟩

/-- C8: calling the dispatcher with `limit = Some(0)` trips the
`assert!(limit > 0)` — a panic, not an error value — before any task is
started (the event trace is empty); with `limit > 0` or no limit the
panic branch is unreachable. -/
theorem dispatch_zero_limit_panics {T E : Type} (src : List (SrcItem T E)) (fuel : Nat) :
    dispatch_concurrent src (some 0) fuel = (.panicked, []) ∧
    (∀ k, 0 < k → (dispatch_concurrent src (some k) fuel).1 ≠ DispatchOut.panicked) ∧
    (dispatch_concurrent src none fuel).1 ≠ DispatchOut.panicked := by
  refine ⟨by rw [dispatch_concurrent]; simp, ?_, ?_⟩
  · intro k hk
    rw [dispatch_concurrent]
    rw [if_neg (by simp; omega)]
    rcases hr : drun (some k) fuel (⟨src, false, [], []⟩ : DState T E) with ⟨rr, revs⟩
    cases rr <;> simp
  · rw [dispatch_concurrent]
    rw [if_neg (by simp)]
    rcases hr : drun none fuel (⟨src, false, [], []⟩ : DState T E) with ⟨rr, revs⟩
    cases rr <;> simp

/-- Witness for C8 at a concrete source and limit 1. -/
theorem dispatch_zero_limit_panics_witness :
    (0 < 1) ∧
    (dispatch_concurrent [(⟨0, Except.error 7⟩ : SrcItem Nat Nat)] (some 0) 1 =
        (.panicked, []) ∧
      (dispatch_concurrent [(⟨0, Except.error 7⟩ : SrcItem Nat Nat)] (some 1) 1).1 ≠
        DispatchOut.panicked) :=
  ⟨by decide,
    (dispatch_zero_limit_panics (T := Nat) [⟨0, Except.error 7⟩] 1).1,
    (dispatch_zero_limit_panics (T := Nat) [⟨0, Except.error 7⟩] 1).2.1 1 (by decide)⟩

/-- C10: on an empty task source the dispatcher (with any valid limit)
terminates successfully with an empty output collection, after one round
that observes exhaustion and one round that observes the empty in-flight
set. -/
theorem dispatch_empty_source {T E : Type} (limit : Option Nat) (fuel : Nat)
    (h : limit = none ∨ ∃ k, 0 < k ∧ limit = some k) :
    dispatch_concurrent ([] : List (SrcItem T E)) limit (fuel + 2) =
      (.completed (.ok []), []) := by
  rcases h with rfl | ⟨k, hk, rfl⟩
  · simp [dispatch_concurrent, drun, dround, fill, pollFuts]
  · have hne : (some k : Option Nat) ≠ some 0 := by simp; omega
    rw [dispatch_concurrent, if_neg hne]
    have hcap : ((some k).all (fun l => (([] : List (MTask T E)).length < l)) : Bool) = true := by
      simp
      omega
    simp [drun, dround, fill, pollFuts, hcap, hk]

/-- Witness for C10 with limit 2. -/
theorem dispatch_empty_source_witness :
    ((some 2 : Option Nat) = none ∨ ∃ k, 0 < k ∧ (some 2 : Option Nat) = some k) ∧
    dispatch_concurrent ([] : List (SrcItem Nat Nat)) (some 2) 2 =
      (.completed (.ok []), []) :=
  ⟨Or.inr ⟨2, by decide, rfl⟩,
    dispatch_empty_source (T := Nat) (E := Nat) (some 2) 0 (Or.inr ⟨2, by decide, rfl⟩)⟩

/-! ## Orchestrator theorems -/

/-- C7: if the begin (create-multipart-upload) call fails,
`multipart_upload` immediately returns that failure and issues no other
remote call — the trace holds only the create call, in particular no
abort. -/
theorem mpu_begin_failure {E Out : Type} (e : E)
    (uploadFutures : List (SrcItem CompletedPart E))
    (completeRes : List CompletedPart → Except E Out) (abortRes : Bool)
    (limit : Option Nat) (fuel : Nat) :
    multipart_upload (.error e) uploadFutures completeRes abortRes limit fuel =
      ((.err e : MPUOut E Out), [.createCall]) := rfl

/-- C9: a successful begin whose response carries no `upload_id` makes
`multipart_upload` panic via `unwrap` (after only the create call); and in
every non-panicking continuation the upload id used by the complete and
abort calls is exactly the one obtained from the begin response. -/
theorem mpu_upload_id_unwrap {E Out : Type}
    (createRes : Except E (Option String))
    (uploadFutures : List (SrcItem CompletedPart E))
    (completeRes : List CompletedPart → Except E Out) (abortRes : Bool)
    (limit : Option Nat) (fuel : Nat) :
    (multipart_upload (.ok none) uploadFutures completeRes abortRes limit fuel =
      ((.panickedNoUploadId : MPUOut E Out), [.createCall])) ∧
    (∀ uid parts,
      MPUCall.completeCall uid parts ∈
          (multipart_upload createRes uploadFutures completeRes abortRes limit fuel).2 →
        createRes = .ok (some uid)) ∧
    (∀ uid,
      MPUCall.abortCall uid ∈
          (multipart_upload createRes uploadFutures completeRes abortRes limit fuel).2 →
        createRes = .ok (some uid)) := by
  refine ⟨rfl, ?_, ?_⟩
  · intro uid parts h
    cases createRes with
    | error e => simp [multipart_upload] at h
    | ok o =>
      cases o with
      | none => simp [multipart_upload] at h
      | some uid' =>
        rcases hd : (dispatch_concurrent uploadFutures limit fuel).1 with _ | _ | r
        · simp [multipart_upload, hd] at h
        · simp [multipart_upload, hd] at h
        · cases r with
          | error e => simp [multipart_upload, hd] at h
          | ok ps =>
            rcases hc : completeRes (ps.mergeSort
                (fun a b => a.part_number ≤ b.part_number)) with e | o
            · simp [multipart_upload, hd, hc] at h
              rw [h.1]
            · simp [multipart_upload, hd, hc] at h
              rw [h.1]
  · intro uid h
    cases createRes with
    | error e => simp [multipart_upload] at h
    | ok o =>
      cases o with
      | none => simp [multipart_upload] at h
      | some uid' =>
        rcases hd : (dispatch_concurrent uploadFutures limit fuel).1 with _ | _ | r
        · simp [multipart_upload, hd] at h
        · simp [multipart_upload, hd] at h
        · cases r with
          | error e =>
            simp [multipart_upload, hd] at h
            rw [h]
          | ok ps =>
            rcases hc : completeRes (ps.mergeSort
                (fun a b => a.part_number ≤ b.part_number)) with e | o
            · simp [multipart_upload, hd, hc] at h
              rw [h]
            · simp [multipart_upload, hd, hc] at h

/-- Witness for C9: begin yields upload id `u`; the dispatcher (empty
source) succeeds and the complete call is issued with that id. -/
theorem mpu_upload_id_unwrap_witness :
    (MPUCall.completeCall "u" [] ∈
        (multipart_upload (.ok (some "u")) ([] : List (SrcItem CompletedPart Nat)) (fun _ => (Except.ok 0 : Except Nat Nat))
          true none 2).2) ∧
    ((.ok (some "u") : Except Nat (Option String)) = .ok (some "u")) := by
  have hm : MPUCall.completeCall "u" [] ∈
      (multipart_upload (.ok (some "u")) ([] : List (SrcItem CompletedPart Nat)) (fun _ => (Except.ok 0 : Except Nat Nat))
        true none 2).2 := by
    simp [multipart_upload, dispatch_concurrent, drun, dround, fill, pollFuts,
      List.mergeSort]
  exact ⟨hm, (mpu_upload_id_unwrap (.ok (some "u")) [] (fun _ => .ok 0) true
    none 2).2.1 "u" [] hm⟩

/-- C2: for every failure after a successful begin — a part-upload
(dispatch) failure or a complete-call failure — `multipart_upload` returns
exactly that original failure, and the abort call's own outcome is never
surfaced: the result does not depend on `abortRes` at all. -/
theorem mpu_original_error_returned {E Out : Type} (uid : String)
    (uploadFutures : List (SrcItem CompletedPart E))
    (completeRes : List CompletedPart → Except E Out)
    (limit : Option Nat) (fuel : Nat) :
    (∀ e : E, (dispatch_concurrent uploadFutures limit fuel).1 = .completed (.error e) →
      ∀ abortRes,
        multipart_upload (.ok (some uid)) uploadFutures completeRes abortRes limit fuel =
          (.err e, [.createCall, .abortCall uid])) ∧
    (∀ (parts : List CompletedPart) (e : E),
      (dispatch_concurrent uploadFutures limit fuel).1 = .completed (.ok parts) →
      completeRes (parts.mergeSort (fun a b => a.part_number ≤ b.part_number)) =
        .error e →
      ∀ abortRes,
        multipart_upload (.ok (some uid)) uploadFutures completeRes abortRes limit fuel =
          (.err e, [.createCall,
            .completeCall uid (parts.mergeSort (fun a b => a.part_number ≤ b.part_number)),
            .abortCall uid])) ∧
    (∀ b₁ b₂ : Bool,
      multipart_upload (.ok (some uid)) uploadFutures completeRes b₁ limit fuel =
        multipart_upload (.ok (some uid)) uploadFutures completeRes b₂ limit fuel) := by
  refine ⟨?_, ?_, fun b₁ b₂ => rfl⟩
  · intro e hd abortRes
    simp [multipart_upload, hd]
  · intro parts e hd hc abortRes
    simp [multipart_upload, hd, hc]

/-- Witness for C2: a dispatch failure (stream error 3) and, separately, a
complete-call failure (error 9) after an empty dispatch. -/
theorem mpu_original_error_returned_witness :
    ((dispatch_concurrent [(⟨0, Except.error 3⟩ : SrcItem CompletedPart Nat)] none 1).1 =
        .completed (.error 3) ∧
      multipart_upload (.ok (some "u")) [(⟨0, Except.error 3⟩ : SrcItem CompletedPart Nat)]
          (fun _ => (Except.ok 0 : Except Nat Nat)) true none 1 =
        (.err 3, [.createCall, .abortCall "u"])) ∧
    ((dispatch_concurrent ([] : List (SrcItem CompletedPart Nat)) none 2).1 =
        .completed (.ok []) ∧
      multipart_upload (.ok (some "u")) ([] : List (SrcItem CompletedPart Nat))
          (fun _ => (Except.error 9 : Except Nat Nat)) false none 2 =
        (.err 9, [.createCall, .completeCall "u" [], .abortCall "u"])) := by
  have hd1 : (dispatch_concurrent [(⟨0, Except.error 3⟩ : SrcItem CompletedPart Nat)]
      none 1).1 = .completed (.error 3) := rfl
  have hd2 : (dispatch_concurrent ([] : List (SrcItem CompletedPart Nat)) none 2).1 =
      .completed (.ok []) := by
    simp [dispatch_concurrent, drun, dround, fill, pollFuts]
  have hc2 : (fun _ => (.error 9 : Except Nat Nat))
      (([] : List CompletedPart).mergeSort (fun a b => a.part_number ≤ b.part_number)) =
      .error 9 := rfl
  refine ⟨⟨hd1, ?_⟩, ⟨hd2, ?_⟩⟩
  · exact (mpu_original_error_returned "u" [⟨0, Except.error 3⟩] (fun _ => .ok 0)
      none 1).1 3 hd1 true
  · have := (mpu_original_error_returned "u"
      ([] : List (SrcItem CompletedPart Nat)) (fun _ => (Except.error 9 : Except Nat Nat)) none 2).2.1
      [] 9 hd2 hc2 false
    simpa [List.mergeSort] using this

/-- C6: after a successful begin, a part-upload (dispatch) failure makes
`multipart_upload` call abort with the upload id obtained from begin and
never call complete; a complete-call failure likewise triggers the abort
call with that id. -/
theorem mpu_abort_on_failure {E Out : Type} (uid : String)
    (uploadFutures : List (SrcItem CompletedPart E))
    (completeRes : List CompletedPart → Except E Out)
    (limit : Option Nat) (fuel : Nat) :
    (∀ e : E, (dispatch_concurrent uploadFutures limit fuel).1 = .completed (.error e) →
      ∀ abortRes,
        (multipart_upload (.ok (some uid)) uploadFutures completeRes abortRes limit fuel).2 =
            [.createCall, .abortCall uid] ∧
          ∀ uid' parts, MPUCall.completeCall uid' parts ∉
            (multipart_upload (.ok (some uid)) uploadFutures completeRes abortRes
              limit fuel).2) ∧
    (∀ (parts : List CompletedPart) (e : E),
      (dispatch_concurrent uploadFutures limit fuel).1 = .completed (.ok parts) →
      completeRes (parts.mergeSort (fun a b => a.part_number ≤ b.part_number)) =
        .error e →
      ∀ abortRes, MPUCall.abortCall uid ∈
        (multipart_upload (.ok (some uid)) uploadFutures completeRes abortRes
          limit fuel).2) := by
  constructor
  · intro e hd abortRes
    constructor
    · simp [multipart_upload, hd]
    · intro uid' parts
      simp [multipart_upload, hd]
  · intro parts e hd hc abortRes
    simp [multipart_upload, hd, hc]

/-- Witness for C6: part-upload failure (stream error 3) with begin id
`u`; complete failure (error 9) after an empty dispatch. -/
theorem mpu_abort_on_failure_witness :
    ((dispatch_concurrent [(⟨0, Except.error 3⟩ : SrcItem CompletedPart Nat)] none 1).1 =
        .completed (.error 3) ∧
      (multipart_upload (.ok (some "u")) [(⟨0, Except.error 3⟩ : SrcItem CompletedPart Nat)]
          (fun _ => (Except.ok 0 : Except Nat Nat)) true none 1).2 = [.createCall, .abortCall "u"] ∧
      (∀ uid' parts, MPUCall.completeCall uid' parts ∉
        (multipart_upload (.ok (some "u")) [(⟨0, Except.error 3⟩ : SrcItem CompletedPart Nat)]
          (fun _ => (Except.ok 0 : Except Nat Nat)) true none 1).2)) ∧
    MPUCall.abortCall "u" ∈
      (multipart_upload (.ok (some "u"))
        ([] : List (SrcItem CompletedPart Nat)) (fun _ => (Except.error 9 : Except Nat Nat)) false none 2).2 := by
  have hd1 : (dispatch_concurrent [(⟨0, Except.error 3⟩ : SrcItem CompletedPart Nat)]
      none 1).1 = .completed (.error 3) := rfl
  have hd2 : (dispatch_concurrent ([] : List (SrcItem CompletedPart Nat)) none 2).1 =
      .completed (.ok []) := by
    simp [dispatch_concurrent, drun, dround, fill, pollFuts]
  have h1 := (mpu_abort_on_failure "u" [⟨0, Except.error 3⟩] (fun _ => .ok 0)
    none 1).1 3 hd1 true
  have h2 := (mpu_abort_on_failure "u"
    ([] : List (SrcItem CompletedPart Nat)) (fun _ => (Except.error 9 : Except Nat Nat)) none 2).2
    [] 9 hd2 rfl false
  exact ⟨⟨hd1, h1.1, h1.2⟩, h2⟩

/-- C3: whenever the dispatcher succeeds, `multipart_upload` issues the
complete call with the collected completed parts sorted ascending by
part_number — a sorted permutation of the dispatcher's outputs — whatever
completion order the dispatcher produced. -/
theorem mpu_sorts_parts {E Out : Type} (uid : String)
    (uploadFutures : List (SrcItem CompletedPart E))
    (completeRes : List CompletedPart → Except E Out) (abortRes : Bool)
    (limit : Option Nat) (fuel : Nat) (parts : List CompletedPart)
    (hd : (dispatch_concurrent uploadFutures limit fuel).1 = .completed (.ok parts)) :
    ∃ sorted,
      MPUCall.completeCall uid sorted ∈
        (multipart_upload (.ok (some uid)) uploadFutures completeRes abortRes
          limit fuel).2 ∧
      sorted.Perm parts ∧
      List.Sorted (fun a b => a.part_number ≤ b.part_number) sorted := by
  refine ⟨parts.mergeSort (fun a b => a.part_number ≤ b.part_number), ?_, ?_, ?_⟩
  · rcases hc : completeRes (parts.mergeSort
        (fun a b => a.part_number ≤ b.part_number)) with e | o
    · simp [multipart_upload, hd, hc]
    · simp [multipart_upload, hd, hc]
  · exact List.mergeSort_perm parts _
  · have hs := @List.sorted_mergeSort CompletedPart
      (fun a b => a.part_number ≤ b.part_number)
      (fun a b c hab hbc => by
        simp only [decide_eq_true_eq] at hab hbc ⊢
        omega)
      (fun a b => by
        simp only [Bool.or_eq_true, decide_eq_true_eq]
        omega)
      parts
    exact List.Pairwise.imp (fun hab => by simpa using hab) hs

/-- Witness for C3: two parts finishing out of submission order (part 1
is slower than part 2), so the dispatcher collects `[part 2, part 1]`; the
complete call still receives them sorted `[part 1, part 2]`. -/
theorem mpu_sorts_parts_witness :
    ((dispatch_concurrent
        [(⟨0, Except.ok ⟨1, Except.ok ⟨none, 1⟩⟩⟩ : SrcItem CompletedPart Nat),
          ⟨0, Except.ok ⟨0, Except.ok ⟨none, 2⟩⟩⟩] none 3).1 =
      .completed (.ok [⟨none, 2⟩, ⟨none, 1⟩])) ∧
    ∃ sorted,
      MPUCall.completeCall "u" sorted ∈
        (multipart_upload (.ok (some "u"))
          [(⟨0, Except.ok ⟨1, Except.ok ⟨none, 1⟩⟩⟩ : SrcItem CompletedPart Nat),
            ⟨0, Except.ok ⟨0, Except.ok ⟨none, 2⟩⟩⟩]
          (fun _ => (Except.ok 0 : Except Nat Nat)) true none 3).2 ∧
      sorted.Perm [⟨none, 2⟩, ⟨none, 1⟩] ∧
      List.Sorted (fun a b => a.part_number ≤ b.part_number) sorted := by
  have hd : (dispatch_concurrent
      [(⟨0, Except.ok ⟨1, Except.ok ⟨none, 1⟩⟩⟩ : SrcItem CompletedPart Nat),
        ⟨0, Except.ok ⟨0, Except.ok ⟨none, 2⟩⟩⟩] none 3).1 =
      .completed (.ok [⟨none, 2⟩, ⟨none, 1⟩]) := by
    simp [dispatch_concurrent, drun, dround, fill, pollFuts]
  exact ⟨hd, mpu_sorts_parts "u" _ (fun _ => .ok 0) true none 3
    [⟨none, 2⟩, ⟨none, 1⟩] hd⟩

end RusotoS3Mpu
